import Mathlib

/-!
Verification of the moving-NCA simulation engine (`src/moving_nca.py`).

Modelling conventions.
* Real-valued array entries are rationals (`ℚ`); machine floats are modelled
  exactly, so equalities hold up to floating-point summation order.
* Numpy arrays are total functions from their index space; shapes are carried
  separately where the code reads them (`state.shape`, `images.shape`).
* Perception anchors are `ℤ × ℤ` pairs: between the in-place `+=` and the
  clipping step they can be transiently negative.
* `np.empty` buffers are modelled by an explicit garbage function `g`
  giving the content of slots that the code never writes.
* In-place mutation followed by an `assert` is modelled by `Except`: the
  error payload is the array content at the moment the assertion fires.
* The shared update function `dmodel` (a Keras Sequential of Dense layers,
  an external collaborator per the spec) is a parameter `f` applied row-wise.
-/

/-- Single-channel image (`img_channels = 1`): value at (row, col).
The single path slices `img[..., :1]`, the batched path `images[b, ..., :]`;
with one channel both read this same value. -/
abbrev Img : Type := ℤ → ℤ → ℚ

/-- State array value at (row, col, channel); the channel count
`C = input_dim - img_channels = num_hidden + num_classes` is carried
separately. -/
abbrev StateArr : Type := ℕ → ℕ → ℕ → ℚ

/-- Perception anchors: per-cell (row, col) pair. -/
abbrev Anchors : Type := ℕ → ℕ → ℤ × ℤ

/-- Per-cell continuous 2-vector action. -/
abbrev Actions : Type := ℕ → ℕ → ℚ × ℚ

/-- Scalar discretization used by `custom_round_slicing`:
`negative = x < -0.0007`, `positive = x > 0.0007`, `zero` otherwise. -/
def discretize (v : ℚ) : ℤ :=
  if v < -(7/10000) then -1 else if 7/10000 < v then 1 else 0

/-- `custom_round_slicing`: the three boolean masks `negative`, `positive`,
`zero` partition the entries, and `x_new` gets -1 / 1 / 0 on them, i.e. the
scalar discretization applied elementwise to both action components. -/
def custom_round_slicing (x : Actions) : ℕ → ℕ → ℤ × ℤ :=
  fun i j => (discretize (x i j).1, discretize (x i j).2)

/-- `clipping(array, N, M)`: elementwise `min(max(v, 0), N)` on axis 0 and
`min(max(v, 0), M)` on axis 1 (in-place in the source). -/
def clipping (array : Anchors) (N M : ℤ) : Anchors :=
  fun x y => (min (max (array x y).1 0) N, min (max (array x y).2 0) M)

/-- The in-place `perception += custom_round_slicing(action)` from
`add_action_slicing`. -/
def add_discrete_action (perception : Anchors) (action : Actions) : Anchors :=
  fun x y => ((perception x y).1 + (custom_round_slicing action x y).1,
              (perception x y).2 + (custom_round_slicing action x y).2)

/-- `add_action_slicing`: first the in-place `+=`, then `assert N == M`,
then `clipping(perception, N-1, M-1)`.  The assertion is the `Except`:
on failure the array has already been mutated and is returned un-clipped
as the error payload. -/
def add_action_slicing (perception : Anchors) (action : Actions) (N M : ℕ) :
    Except Anchors Anchors :=
  let mutated := add_discrete_action perception action
  if N = M then .ok (clipping mutated ((N : ℤ) - 1) ((M : ℤ) - 1))
  else .error mutated

/-- `alter_perception_slicing` forwards to `add_action_slicing` with the
active-area dimensions. -/
def alter_perception_slicing (perceptions : Anchors) (actions : Actions)
    (Nneo Mneo Nactive Mactive : ℕ) : Except Anchors Anchors :=
  add_action_slicing perceptions actions Nactive Mactive

/-- `clipping_batched`: the same clamp for every batch element. -/
def clipping_batched (array : ℕ → Anchors) (N M : ℤ) : ℕ → Anchors :=
  fun b x y => (min (max (array b x y).1 0) N, min (max (array b x y).2 0) M)

/-- `add_action_slicing_batched`: in-place `+=` of the elementwise
discretization, `assert N == M`, then `clipping_batched(..., N-1, M-1)`. -/
def add_action_slicing_batched (perceptions : ℕ → Anchors) (actions : ℕ → Actions)
    (N M : ℕ) : Except (ℕ → Anchors) (ℕ → Anchors) :=
  let mutated := fun b => add_discrete_action (perceptions b) (actions b)
  if N = M then .ok (clipping_batched mutated ((N : ℤ) - 1) ((M : ℤ) - 1))
  else .error mutated

/-- `alter_perception_slicing_batched` forwards to
`add_action_slicing_batched` with the active-area dimensions. -/
def alter_perception_slicing_batched (perceptions : ℕ → Anchors)
    (actions : ℕ → Actions) (Nneo Mneo Nactive Mactive : ℕ) :
    Except (ℕ → Anchors) (ℕ → Anchors) :=
  add_action_slicing_batched perceptions actions Nactive Mactive

/-- `get_dimensions(data_shape, N_neo, M_neo)`: default each grid dimension
to the corresponding image dimension minus 2 when it is `None`. -/
def get_dimensions (dataShape : ℕ × ℕ) (Nneo Mneo : Option ℕ) : ℕ × ℕ :=
  ((match Nneo with
    | none => dataShape.1 - 2
    | some n => n),
   (match Mneo with
    | none => dataShape.2 - 2
    | some m => m))

/-- Shape of the state allocated by `MovingNCA.reset`:
`np.zeros((size_image[0], size_image[1], input_dim - img_channels))`. -/
def reset_state_shape (sizeImage : ℕ × ℕ) (C : ℕ) : ℕ × ℕ × ℕ :=
  (sizeImage.1, sizeImage.2, C)

/-- Content of the state allocated by `MovingNCA.reset`: all zeros. -/
def reset_state (sizeImage : ℕ × ℕ) (C : ℕ) : StateArr :=
  fun _ _ _ => 0

/-- Shape of the state allocated by `MovingNCA.reset_batched`:
`np.zeros((batch_size, size_image[0], size_image[1], input_dim - img_channels))`. -/
def reset_state_batched_shape (batchSize : ℕ) (sizeImage : ℕ × ℕ) (C : ℕ) :
    ℕ × ℕ × ℕ × ℕ :=
  (batchSize, sizeImage.1, sizeImage.2, C)

/-- Python values the modelled fragment can produce. -/
inductive PyValue : Type
  | notImplementedErrorInstance
deriving DecidableEq

/-- Outcome of a Python call: a normal return or a raised exception. -/
inductive PyOutcome (α : Type) : Type
  | ret (v : α)
  | raised (e : α)
deriving DecidableEq

/-- `MovingNCA.predict_step(data)`: the body is
`return NotImplementedError()` — it returns the exception instance as a
normal value; no `raise` occurs. -/
def predict_step (data : ℕ) : PyOutcome PyValue :=
  .ret .notImplementedErrorInstance

/-- The flattened 3x3 window of `collect_input` for the cell at grid
position (x, y) with anchor (xp, yp):
`dummy = np.concatenate((img[xp:xp+3, yp:yp+3, :1], state[x:x+3, y:y+3, :]), axis=2)`
flattened row-major with the channel axis fastest, so window element (i, j)
contributes the image value followed by the C state channels.  In the model
the arrays are total functions, so the slices are always full 3x3 windows
(the code relies on in-range anchors for this). -/
def dummyFlat (img : Img) (state : StateArr) (C : ℕ) (xp yp : ℤ) (x y : ℕ) :
    List ℚ :=
  (List.range 3).flatMap fun i =>
    (List.range 3).flatMap fun j =>
      img (xp + i) (yp + j) ::
        (List.range C).map fun ch => state (x + i) (y + j) ch

/-- `position_addon` from `MovingNCA.__init__`:
`0 if self.position == None else 2`.  Note the comparison is with the Python
`None` object (modelled as `Option.none`), so any string — including the
default `"None"` — yields 2. -/
def position_addon (mode : Option String) : ℕ :=
  if mode = none then 0 else 2

/-- The two scalars written by `collect_input` when `position == "current"`:
`(x_p - N // 2) / (N // 2)` and `(y_p - M // 2) / (M // 2)`
(`//` is floor division on naturals, `/` true division). -/
def posCurrent (N M : ℕ) (xp yp : ℤ) : List ℚ :=
  [((xp : ℚ) - ((N / 2 : ℕ) : ℚ)) / ((N / 2 : ℕ) : ℚ),
   ((yp : ℚ) - ((M / 2 : ℕ) : ℚ)) / ((M / 2 : ℕ) : ℚ)]

/-- The two scalars written by `collect_input` when `position == "initial"`:
`(float(x) * N / float(N_neo) - N // 2) / (N // 2)` and the analogue in y. -/
def posInitial (N M Nneo Mneo x y : ℕ) : List ℚ :=
  [((x : ℚ) * N / (Nneo : ℚ) - ((N / 2 : ℕ) : ℚ)) / ((N / 2 : ℕ) : ℚ),
   ((y : ℚ) * M / (Mneo : ℚ) - ((M / 2 : ℕ) : ℚ)) / ((M / 2 : ℕ) : ℚ)]

/-- One row of the input buffer built by `collect_input`.  The buffer row has
width `3*3*input_dim + position_addon`; the flattened window fills the first
`3*3*input_dim` slots, the positional writes (if any) fill slots -2 and -1.
When the mode is neither `"current"` nor `"initial"` those trailing
`position_addon` slots keep the `np.empty` garbage `g r _`. -/
def collect_input_row (mode : Option String) (N M Nneo Mneo C : ℕ)
    (img : Img) (state : StateArr) (g : ℕ → ℕ → ℚ) (r x y : ℕ) (xp yp : ℤ) :
    List ℚ :=
  let flat := dummyFlat img state C xp yp x y
  if mode = some "current" then flat ++ posCurrent N M xp yp
  else if mode = some "initial" then flat ++ posInitial N M Nneo Mneo x y
  else flat ++ (List.range (position_addon mode)).map fun k => g r (flat.length + k)

/-- `collect_input`: rows in row-major cell order, row `x*M_neo + y` for cell
(x, y) using that cell's anchor; `N, M` are `state.shape[:2]` at the call
site (the image dimensions, by `reset`). -/
def collect_input (mode : Option String) (N M Nneo Mneo C : ℕ)
    (img : Img) (state : StateArr) (perceptions : Anchors) (g : ℕ → ℕ → ℚ) :
    List (List ℚ) :=
  (List.range Nneo).flatMap fun x =>
    (List.range Mneo).map fun y =>
      collect_input_row mode N M Nneo Mneo C img state g
        (x * Mneo + y) x y (perceptions x y).1 (perceptions x y).2

/-- `collect_input_batched`: row `b*N_neo*M_neo + x*M_neo + y` holds the same
content as the single-sample row for batch element `b` (the source iterates
x, y, b but the writes target disjoint rows, so only the final buffer content
matters); `N, M` are `images.shape[1:3]`. -/
def collect_input_batched (mode : Option String) (N M Nneo Mneo C B : ℕ)
    (images : ℕ → Img) (states : ℕ → StateArr) (perceptions : ℕ → Anchors)
    (g : ℕ → ℕ → ℚ) : List (List ℚ) :=
  (List.range B).flatMap fun b =>
    (List.range Nneo).flatMap fun x =>
      (List.range Mneo).map fun y =>
        collect_input_row mode N M Nneo Mneo C (images b) (states b) g
          (b * (Nneo * Mneo) + x * Mneo + y) x y
          (perceptions b x y).1 (perceptions b x y).2

/-- `expand(arr)`: the strided fill
`expanded_arr[:, i::3, j::3, 0] = x_p + i`, `expanded_arr[:, i::3, j::3, 1] = y_p + j`
puts at block position (3x+i, 3y+j) the pair (anchor_row(x,y)+i, anchor_col(x,y)+j);
equivalently position (X, Y) holds the anchor at (X/3, Y/3) offset by (X%3, Y%3). -/
def expand (arr : ℕ → ℕ → ℕ → ℤ × ℤ) : ℕ → ℕ → ℕ → ℤ × ℤ :=
  fun b X Y =>
    ((arr b (X / 3) (Y / 3)).1 + ((X % 3 : ℕ) : ℤ),
     (arr b (X / 3) (Y / 3)).2 + ((Y % 3 : ℕ) : ℤ))

/-- `gather_mine(arr, movement_expanded)`:
`new_arr[b, x, y, :] = arr[b, movement_expanded[b,x,y,0], movement_expanded[b,x,y,1], :]`. -/
def gather_mine (arr : ℕ → ℤ → ℤ → ℕ → ℚ) (movement_expanded : ℕ → ℕ → ℕ → ℤ × ℤ) :
    ℕ → ℕ → ℕ → ℕ → ℚ :=
  fun b x y c =>
    arr b (movement_expanded b x y).1 (movement_expanded b x y).2 c

/-- The configuration attributes of a `MovingNCA` instance that the
executors read: `size_image = (H, W)`, `size_neo = (Nneo, Mneo)`,
`num_hidden`, `num_classes`, `position`, `moving`.
Derived: `_size_active = (H-2, W-2)`, `img_channels = 1`, `act_channels = 2`,
`input_dim = 1 + num_hidden + num_classes`,
`output_dim = num_hidden + num_classes + 2`. -/
structure MovingNCA : Type where
  H : ℕ
  W : ℕ
  Nneo : ℕ
  Mneo : ℕ
  num_hidden : ℕ
  num_classes : ℕ
  position : Option String
  moving : Bool

/-- `input_dim - img_channels = num_hidden + num_classes`: the state channel
count. -/
def MovingNCA.C (cfg : MovingNCA) : ℕ := cfg.num_hidden + cfg.num_classes

/-- `output_dim = num_hidden + num_classes + act_channels`. -/
def MovingNCA.output_dim (cfg : MovingNCA) : ℕ := cfg.C + 2

/-- Reshaping of `guesses` to `(N_neo, M_neo, output_dim)`:
entry (x, y, c) is element c of row `x*M_neo + y` (out-of-range reads
default to 0; in contract all reads are in range). -/
def outputsOf (guesses : List (List ℚ)) (Mneo : ℕ) : ℕ → ℕ → ℕ → ℚ :=
  fun x y c => (guesses.getD (x * Mneo + y) []).getD c 0

/-- Reshaping of batched `guesses` to `(B, N_neo, M_neo, output_dim)`:
entry (b, x, y, c) is element c of row `b*N_neo*M_neo + x*M_neo + y`. -/
def outputsOfBatched (guesses : List (List ℚ)) (Nneo Mneo : ℕ) :
    ℕ → ℕ → ℕ → ℕ → ℚ :=
  fun b x y c => (guesses.getD (b * (Nneo * Mneo) + x * Mneo + y) []).getD c 0

/-- The state accumulation
`state[1:1+N_neo, 1:1+M_neo, :] += outputs[:, :, :input_dim - img_channels]`:
interior cells (offset by the one-cell border) gain the first C output
channels; the border and all other entries are untouched. -/
def accumulate (state : StateArr) (out : ℕ → ℕ → ℕ → ℚ) (Nneo Mneo C : ℕ) :
    StateArr :=
  fun i j c =>
    if 1 ≤ i ∧ i < 1 + Nneo ∧ 1 ≤ j ∧ j < 1 + Mneo ∧ c < C then
      state i j c + out (i - 1) (j - 1) c
    else state i j c

/-- Mutable per-run data of the single-sample executor: `self.state`,
`self.perceptions`, and the last `guesses` (initially `None`, modelled `[]`). -/
structure SRun : Type where
  state : StateArr
  perc : Anchors
  guesses : List (List ℚ)

/-- One iteration of `MovingNCA.classify` with ablation disabled
(`silenced = 0`, so the silencing branch is skipped): collect the input
rows, apply `dmodel` (`f`) row-wise, reshape, accumulate into the state
interior, then (if `moving`) discretize+move+clip via
`alter_perception_slicing` on the active-area dimensions — whose `assert`
aborts the run (`Except.error`). -/
def classify_step (cfg : MovingNCA) (f : List ℚ → List ℚ) (g : ℕ → ℕ → ℚ)
    (img : Img) (s : SRun) : Except Unit SRun :=
  let rows := collect_input cfg.position cfg.H cfg.W cfg.Nneo cfg.Mneo cfg.C
      img s.state s.perc g
  let guesses := rows.map f
  let out := outputsOf guesses cfg.Mneo
  let state2 := accumulate s.state out cfg.Nneo cfg.Mneo cfg.C
  if cfg.moving then
    match alter_perception_slicing s.perc
        (fun x y => (out x y (cfg.output_dim - 2), out x y (cfg.output_dim - 1)))
        cfg.Nneo cfg.Mneo (cfg.H - 2) (cfg.W - 2) with
    | .ok p2 => .ok ⟨state2, p2, guesses⟩
    | .error _ => .error ()
  else .ok ⟨state2, s.perc, guesses⟩

/-- The `for _ in range(self.iterations)` loop of `classify`. -/
def classify_loop (cfg : MovingNCA) (f : List ℚ → List ℚ) (g : ℕ → ℕ → ℚ)
    (img : Img) : ℕ → SRun → Except Unit SRun
  | 0, s => .ok s
  | k + 1, s =>
    match classify_step cfg f g img s with
    | .ok s2 => classify_loop cfg f g img k s2
    | .error e => .error e

/-- `MovingNCA.classify` from given initial state and anchors (`reset`
provides the zero state and generated anchors): run `iterations` steps and
return `self.state[1:1+N_neo, 1:1+M_neo, -num_classes:]` and `guesses`. -/
def classify (cfg : MovingNCA) (f : List ℚ → List ℚ) (g : ℕ → ℕ → ℚ)
    (img : Img) (state0 : StateArr) (p0 : Anchors) (iterations : ℕ) :
    Except Unit ((ℕ → ℕ → ℕ → ℚ) × List (List ℚ)) :=
  (classify_loop cfg f g img iterations ⟨state0, p0, []⟩).map fun s =>
    (fun x y k => s.state (1 + x) (1 + y) (cfg.C - cfg.num_classes + k),
     s.guesses)

/-- Mutable per-run data of the batched executor: `self.state_batched`,
`self.perceptions_batched`, last `guesses`. -/
structure BRun : Type where
  state : ℕ → StateArr
  perc : ℕ → Anchors
  guesses : List (List ℚ)

/-- One iteration of `MovingNCA.classify_batch`: batched input collection,
one bulk `dmodel` call, reshape to `(B, N_neo, M_neo, output_dim)`,
per-batch-element accumulation, then (if `moving`)
`alter_perception_slicing_batched` on the active-area dimensions. -/
def classify_batch_step (cfg : MovingNCA) (f : List ℚ → List ℚ)
    (g : ℕ → ℕ → ℚ) (B : ℕ) (images : ℕ → Img) (s : BRun) :
    Except Unit BRun :=
  let rows := collect_input_batched cfg.position cfg.H cfg.W cfg.Nneo cfg.Mneo
      cfg.C B images s.state s.perc g
  let guesses := rows.map f
  let out := outputsOfBatched guesses cfg.Nneo cfg.Mneo
  let state2 := fun b => accumulate (s.state b) (out b) cfg.Nneo cfg.Mneo cfg.C
  if cfg.moving then
    match alter_perception_slicing_batched s.perc
        (fun b x y => (out b x y (cfg.output_dim - 2), out b x y (cfg.output_dim - 1)))
        cfg.Nneo cfg.Mneo (cfg.H - 2) (cfg.W - 2) with
    | .ok p2 => .ok ⟨state2, p2, guesses⟩
    | .error _ => .error ()
  else .ok ⟨state2, s.perc, guesses⟩

/-- The iteration loop of `classify_batch`. -/
def classify_batch_loop (cfg : MovingNCA) (f : List ℚ → List ℚ)
    (g : ℕ → ℕ → ℚ) (B : ℕ) (images : ℕ → Img) :
    ℕ → BRun → Except Unit BRun
  | 0, s => .ok s
  | k + 1, s =>
    match classify_batch_step cfg f g B images s with
    | .ok s2 => classify_batch_loop cfg f g B images k s2
    | .error e => .error e

/-- `MovingNCA.classify_batch` from given initial per-element states and
anchors: run `iterations` steps and return
`self.state_batched[:, 1:1+N_neo, 1:1+M_neo, -num_classes:]` and `guesses`. -/
def classify_batch (cfg : MovingNCA) (f : List ℚ → List ℚ) (g : ℕ → ℕ → ℚ)
    (B : ℕ) (images : ℕ → Img) (state0 : ℕ → StateArr) (p0 : ℕ → Anchors)
    (iterations : ℕ) :
    Except Unit ((ℕ → ℕ → ℕ → ℕ → ℚ) × List (List ℚ)) :=
  (classify_batch_loop cfg f g B images iterations ⟨state0, p0, []⟩).map fun s =>
    (fun b x y k => s.state b (1 + x) (1 + y) (cfg.C - cfg.num_classes + k),
     s.guesses)

/-- The `classify` loop instrumented to also record each iteration's Output
Vectors (the reshaped `outputs`), in iteration order. -/
def classify_trace (cfg : MovingNCA) (f : List ℚ → List ℚ) (g : ℕ → ℕ → ℚ)
    (img : Img) : ℕ → SRun → Except Unit (SRun × List (ℕ → ℕ → ℕ → ℚ))
  | 0, s => .ok (s, [])
  | k + 1, s =>
    match classify_step cfg f g img s with
    | .ok s2 =>
      match classify_trace cfg f g img k s2 with
      | .ok (sf, tr) => .ok (sf, outputsOf s2.guesses cfg.Mneo :: tr)
      | .error e => .error e
    | .error e => .error e

/-- Forgetting the recorded Output Vectors, `classify_trace` is exactly the
`classify` loop. -/
theorem classify_trace_fst (cfg : MovingNCA) (f : List ℚ → List ℚ)
    (g : ℕ → ℕ → ℚ) (img : Img) :
    ∀ (K : ℕ) (s : SRun),
      (classify_trace cfg f g img K s).map Prod.fst =
        classify_loop cfg f g img K s := by
  intro K
  induction K with
  | zero => intro s; rfl
  | succ K ih =>
    intro s
    simp only [classify_trace, classify_loop]
    cases classify_step cfg f g img s with
    | ok s2 =>
      show (match classify_trace cfg f g img K s2 with
          | Except.ok (sf, tr) =>
              Except.ok (sf, outputsOf s2.guesses cfg.Mneo :: tr)
          | Except.error e => Except.error e).map Prod.fst =
        classify_loop cfg f g img K s2
      rw [← ih s2]
      cases classify_trace cfg f g img K s2 with
      | ok r => cases r with | mk sf tr => rfl
      | error e => rfl
    | error e => rfl

/-- An anchor pair lies in the active area `[0, N-1] × [0, M-1]`. -/
def anchor_in_range (N M : ℕ) (v : ℤ × ℤ) : Prop :=
  0 ≤ v.1 ∧ v.1 ≤ (N : ℤ) - 1 ∧ 0 ≤ v.2 ∧ v.2 ≤ (M : ℤ) - 1

/-- A sequence of Movement Controller applications
(`add_action_slicing` once per action, as the executor does once per
iteration), aborting if an assertion fires. -/
def apply_action_seq (N M : ℕ) (acts : List Actions) (p : Anchors) :
    Except Anchors Anchors :=
  match acts with
  | [] => .ok p
  | a :: rest =>
    match add_action_slicing p a N M with
    | .ok q => apply_action_seq N M rest q
    | .error e => .error e

/-- Claim C2: the movement discretization returns -1 exactly when
v < -0.0007, +1 exactly when v > 0.0007, and 0 otherwise (both exact
boundary values map to 0), and `custom_round_slicing` applies it
elementwise over the action array. -/
theorem discretize_spec (v : ℚ) (a : Actions) (x y : ℕ) :
    (v < -(7/10000) → discretize v = -1) ∧
    (7/10000 < v → discretize v = 1) ∧
    (-(7/10000) ≤ v → v ≤ 7/10000 → discretize v = 0) ∧
    custom_round_slicing a x y = (discretize (a x y).1, discretize (a x y).2) := by
  refine ⟨fun h => ?_, fun h => ?_, fun h1 h2 => ?_, rfl⟩
  · rw [discretize, if_pos h]
  · rw [discretize, if_neg (by linarith), if_pos h]
  · rw [discretize, if_neg (by linarith), if_neg (by linarith)]

/-- Witness for C2 at the spec's boundary values. -/
theorem discretize_spec_witness :
    discretize (-(1/1000)) = -1 ∧ discretize (1/1000) = 1 ∧
    discretize (-(7/10000)) = 0 ∧ discretize (7/10000) = 0 ∧
    discretize 0 = 0 ∧ discretize (-(6/10000)) = 0 ∧ discretize (6/10000) = 0 :=
  ⟨(discretize_spec (-(1/1000)) (fun _ _ => (0, 0)) 0 0).1 (by norm_num),
   (discretize_spec (1/1000) (fun _ _ => (0, 0)) 0 0).2.1 (by norm_num),
   (discretize_spec (-(7/10000)) (fun _ _ => (0, 0)) 0 0).2.2.1 (by norm_num) (by norm_num),
   (discretize_spec (7/10000) (fun _ _ => (0, 0)) 0 0).2.2.1 (by norm_num) (by norm_num),
   (discretize_spec 0 (fun _ _ => (0, 0)) 0 0).2.2.1 (by norm_num) (by norm_num),
   (discretize_spec (-(6/10000)) (fun _ _ => (0, 0)) 0 0).2.2.1 (by norm_num) (by norm_num),
   (discretize_spec (6/10000) (fun _ _ => (0, 0)) 0 0).2.2.1 (by norm_num) (by norm_num)⟩

/-- Claim C3: on a square active area, anchors that start in the active
area stay in `[0, Active_size-1]` on both axes after any sequence of
Movement Controller applications (discretize, add in place, clip), and no
assertion fires. -/
theorem anchors_stay_in_range (N : ℕ) (p : Anchors) (acts : List Actions)
    (hp : ∀ x y, anchor_in_range N N (p x y)) :
    ∃ q, apply_action_seq N N acts p = .ok q ∧
      ∀ x y, anchor_in_range N N (q x y) := by
  induction acts generalizing p with
  | nil => exact ⟨p, rfl, hp⟩
  | cons a rest ih =>
    have hN : (0 : ℤ) ≤ (N : ℤ) - 1 := le_trans (hp 0 0).1 (hp 0 0).2.1
    have hstep : add_action_slicing p a N N =
        .ok (clipping (add_discrete_action p a) ((N : ℤ) - 1) ((N : ℤ) - 1)) := by
      simp [add_action_slicing]
    have hclip : ∀ x y, anchor_in_range N N
        (clipping (add_discrete_action p a) ((N : ℤ) - 1) ((N : ℤ) - 1) x y) := by
      intro x y
      exact ⟨le_min (le_max_right _ _) hN, min_le_right _ _,
             le_min (le_max_right _ _) hN, min_le_right _ _⟩
    obtain ⟨q, hq, hq2⟩ := ih _ hclip
    exact ⟨q, by rw [apply_action_seq, hstep]; exact hq, hq2⟩

/-- Witness for C3: a 1×1 active area, an anchor at the origin, one action
pushing out of range on both axes. -/
theorem anchors_stay_in_range_witness :
    ∃ q, apply_action_seq 1 1 [fun _ _ => ((1 : ℚ), (-1 : ℚ))]
        (fun _ _ => ((0 : ℤ), (0 : ℤ))) = .ok q ∧
      ∀ x y, anchor_in_range 1 1 (q x y) :=
  anchors_stay_in_range 1 _ _ (fun x y => by
    refine ⟨le_refl 0, ?_, le_refl 0, ?_⟩ <;> norm_num)

/-- Claim C6: movement with `N_active ≠ M_active` fails with the
assertion (`Except.error`, no clipping result is produced), in both the
single and the batched variant; with equal dimensions no assertion fires. -/
theorem movement_square_assertion (p : Anchors) (pb : ℕ → Anchors)
    (a : Actions) (ab : ℕ → Actions) (N M : ℕ) :
    (N ≠ M → (∃ e, add_action_slicing p a N M = .error e) ∧
             (∃ eb, add_action_slicing_batched pb ab N M = .error eb)) ∧
    (N = M → (∃ q, add_action_slicing p a N M = .ok q) ∧
             (∃ qb, add_action_slicing_batched pb ab N M = .ok qb)) := by
  constructor
  · intro h
    exact ⟨⟨add_discrete_action p a, by simp [add_action_slicing, h]⟩,
           ⟨fun b => add_discrete_action (pb b) (ab b),
            by simp [add_action_slicing_batched, h]⟩⟩
  · intro h
    exact ⟨⟨clipping (add_discrete_action p a) ((N : ℤ) - 1) ((M : ℤ) - 1),
            by simp [add_action_slicing, h]⟩,
           ⟨clipping_batched (fun b => add_discrete_action (pb b) (ab b))
              ((N : ℤ) - 1) ((M : ℤ) - 1),
            by simp [add_action_slicing_batched, h]⟩⟩

/-- Witness for C6: a 2×3 active area fails, a 2×2 one succeeds. -/
theorem movement_square_assertion_witness :
    ((∃ e, add_action_slicing (fun _ _ => ((0:ℤ), (0:ℤ)))
        (fun _ _ => ((0:ℚ), (0:ℚ))) 2 3 = .error e) ∧
     (∃ eb, add_action_slicing_batched (fun _ _ _ => ((0:ℤ), (0:ℤ)))
        (fun _ _ _ => ((0:ℚ), (0:ℚ))) 2 3 = .error eb)) ∧
    ((∃ q, add_action_slicing (fun _ _ => ((0:ℤ), (0:ℤ)))
        (fun _ _ => ((0:ℚ), (0:ℚ))) 2 2 = .ok q) ∧
     (∃ qb, add_action_slicing_batched (fun _ _ _ => ((0:ℤ), (0:ℤ)))
        (fun _ _ _ => ((0:ℚ), (0:ℚ))) 2 2 = .ok qb)) :=
  ⟨(movement_square_assertion _ _ _ _ 2 3).1 (by decide),
   (movement_square_assertion _ _ _ _ 2 2).2 rfl⟩

/-- Claim C10: when the square-grid assertion fires (`N ≠ M`), the error
carries the anchor array already mutated in place by the discretized action
and not yet clipped — the failing movement is not atomic. -/
theorem movement_error_leaves_mutated_anchors (p : Anchors) (a : Actions)
    (N M : ℕ) (h : N ≠ M) :
    add_action_slicing p a N M = .error (add_discrete_action p a) ∧
    add_action_slicing_batched (fun _ => p) (fun _ => a) N M =
      .error (fun _ => add_discrete_action p a) := by
  constructor
  · simp [add_action_slicing, h]
  · simp [add_action_slicing_batched, h]

/-- Witness for C10: with anchor (0,0) and action (-1, 1) on a 2×3 area,
the error payload holds the mutated anchor (-1, 1): changed from (0,0) and
outside the clipped range (its row is negative). -/
theorem movement_error_leaves_mutated_anchors_witness :
    (add_action_slicing (fun _ _ => ((0:ℤ), (0:ℤ)))
        (fun _ _ => ((-1:ℚ), (1:ℚ))) 2 3 =
      .error (add_discrete_action (fun _ _ => (0, 0)) (fun _ _ => (-1, 1)))) ∧
    add_discrete_action (fun _ _ => ((0:ℤ), (0:ℤ)))
        (fun _ _ => ((-1:ℚ), (1:ℚ))) 0 0 = (-1, 1) :=
  ⟨(movement_error_leaves_mutated_anchors _ _ 2 3 (by decide)).1, by
    have h1 : discretize (-1) = -1 := by rw [discretize, if_pos (by norm_num)]
    have h2 : discretize 1 = 1 := by
      rw [discretize, if_neg (by norm_num), if_pos (by norm_num)]
    simp [add_discrete_action, custom_round_slicing, h1, h2]⟩

/-- Claim C9 (code evaluated at the failing input): for every input,
`predict_step` RETURNS the `NotImplementedError` instance as a normal value
instead of raising it — `return NotImplementedError()` lacks the `raise`. -/
theorem predict_step_returns_instead_of_raising (data : ℕ) :
    predict_step data = .ret .notImplementedErrorInstance := rfl

/-- Claim C8, counterexample: with a 28×28 image and an explicit 5×5 grid,
`reset` allocates the state at the image size 28, not `N_neo + 2 = 7`. -/
theorem reset_shape_counterexample :
    (reset_state_shape (28, 28) 3).1 ≠
      (get_dimensions (28, 28) (some 5) (some 5)).1 + 2 := by decide

/-- Claim C8 as amended: after reset the State Array is all zero with shape
`size_image[0] × size_image[1] × C` (and the batched variant prepends the
batch size); this equals `(N_neo+2) × (M_neo+2) × C` exactly when the grid
dimensions take their defaults (`size_neo` entries `None`). -/
theorem reset_shape_amended (H W C B : ℕ) (hH : 2 ≤ H) (hW : 2 ≤ W) :
    (∀ i j c, reset_state (H, W) C i j c = 0) ∧
    reset_state_shape (H, W) C = (H, W, C) ∧
    reset_state_batched_shape B (H, W) C = (B, H, W, C) ∧
    (get_dimensions (H, W) none none = (H - 2, W - 2) ∧
     reset_state_shape (H, W) C =
       ((get_dimensions (H, W) none none).1 + 2,
        (get_dimensions (H, W) none none).2 + 2, C)) := by
  have h1 : H - 2 + 2 = H := by omega
  have h2 : W - 2 + 2 = W := by omega
  exact ⟨fun i j c => rfl, rfl, rfl, rfl, by simp [reset_state_shape, get_dimensions, h1, h2]⟩

/-- Witness for C8 as amended, at a 28×28 image with default grid size. -/
theorem reset_shape_amended_witness :
    (2 ≤ 28 ∧ 2 ≤ 28) ∧
    reset_state_shape (28, 28) 3 =
      ((get_dimensions (28, 28) none none).1 + 2,
       (get_dimensions (28, 28) none none).2 + 2, 3) :=
  ⟨⟨by decide, by decide⟩,
   (reset_shape_amended 28 28 3 1 (by decide) (by decide)).2.2.2.2⟩

/-- Claim C5, counterexample: with an unrecognized position mode the Input
Vector is NOT exactly the flattened patch concatenation: `position_addon`
is 2 for any non-`None` mode, so the row carries two trailing `np.empty`
slots that `collect_input` never writes (here garbage value 5). -/
theorem position_fallback_counterexample :
    collect_input_row (some "banana") 3 3 1 1 0 (fun _ _ => 0) (fun _ _ _ => 0)
        (fun _ _ => 5) 0 0 0 0 0 ≠
      dummyFlat (fun _ _ => 0) (fun _ _ _ => 0) 0 0 0 0 0 := by
  intro h
  have hlen := congrArg List.length h
  simp [collect_input_row, dummyFlat, position_addon, List.range_succ] at hlen

/-- Claim C5 as amended: for any position mode other than `"current"` and
`"initial"`, `collect_input` writes no positional scalars and raises no
error — the written content is exactly the flattened image-patch/state-patch
concatenation, as in none mode — but for a non-`None` mode string the row is
allocated `position_addon = 2` wider, so the full Input Vector is the patch
concatenation followed by two unwritten garbage slots, and its length is
`3*3*input_dim + 2` rather than the none-mode `3*3*input_dim`. -/
theorem position_fallback_amended (s : String) (hs1 : s ≠ "current")
    (hs2 : s ≠ "initial") (N M Nneo Mneo C r x y : ℕ) (xp yp : ℤ)
    (img : Img) (state : StateArr) (g : ℕ → ℕ → ℚ) :
    position_addon (some s) = 2 ∧
    collect_input_row (some s) N M Nneo Mneo C img state g r x y xp yp =
      dummyFlat img state C xp yp x y ++
        [g r (dummyFlat img state C xp yp x y).length,
         g r ((dummyFlat img state C xp yp x y).length + 1)] ∧
    (collect_input_row (some s) N M Nneo Mneo C img state g r x y xp yp).length =
      3 * 3 * (1 + C) + 2 ∧
    (collect_input_row none N M Nneo Mneo C img state g r x y xp yp).length =
      3 * 3 * (1 + C) := by
  have hflatlen : (dummyFlat img state C xp yp x y).length = 3 * 3 * (1 + C) := by
    simp [dummyFlat, List.range_succ]
    ring
  have hrow : collect_input_row (some s) N M Nneo Mneo C img state g r x y xp yp =
      dummyFlat img state C xp yp x y ++
        [g r (dummyFlat img state C xp yp x y).length,
         g r ((dummyFlat img state C xp yp x y).length + 1)] := by
    simp [collect_input_row, hs1, hs2, position_addon, List.range_succ]
  refine ⟨rfl, hrow, ?_, ?_⟩
  · rw [hrow]
    simp [hflatlen]
  · simp [collect_input_row, position_addon, hflatlen]

/-- Witness for C5 as amended, at the mode string `"banana"`. -/
theorem position_fallback_amended_witness :
    ("banana" ≠ "current" ∧ "banana" ≠ "initial") ∧
    position_addon (some "banana") = 2 ∧
    (collect_input_row (some "banana") 3 3 1 1 0 (fun _ _ => 0)
        (fun _ _ _ => 0) (fun _ _ => 5) 0 0 0 0 0).length = 3 * 3 * (1 + 0) + 2 :=
  ⟨⟨by decide, by decide⟩,
   (position_fallback_amended "banana" (by decide) (by decide) 3 3 1 1 0 0 0 0
      0 0 (fun _ _ => 0) (fun _ _ _ => 0) (fun _ _ => 5)).1,
   (position_fallback_amended "banana" (by decide) (by decide) 3 3 1 1 0 0 0 0
      0 0 (fun _ _ => 0) (fun _ _ _ => 0) (fun _ _ => 5)).2.2.1⟩

/-- Indexing a flattening of equal-length segments: the element at
`k * s` is the head of segment `k`. -/
theorem flatten_getD_uniform (s : ℕ) (hs : 0 < s) :
    ∀ (segs : List (List ℚ)) (k : ℕ), (∀ l ∈ segs, l.length = s) →
      k < segs.length →
      segs.flatten.getD (k * s) 0 = (segs.getD k []).getD 0 0 := by
  intro segs
  induction segs with
  | nil => intro k _ hk; simp at hk
  | cons l rest ih =>
    intro k hlen hk
    have hl : l.length = s := hlen l (by simp)
    cases k with
    | zero =>
      rw [List.flatten_cons, Nat.zero_mul,
          List.getD_append _ _ 0 0 (by omega)]
      simp
    | succ k =>
      rw [List.flatten_cons,
          List.getD_append_right _ _ 0 ((k + 1) * s) (by nlinarith)]
      have hsub : (k + 1) * s - l.length = k * s := by
        rw [hl, Nat.succ_mul, Nat.add_sub_cancel]
      rw [hsub]
      have := ih k (fun l2 hl2 => hlen l2 (by simp [hl2])) (by simpa using hk)
      simpa using this

/-- `dummyFlat` is the flattening of the nine per-window-position segments,
each of length `1 + C` (image value first, then the C state channels). -/
theorem dummyFlat_eq_flatten (img : Img) (state : StateArr) (C : ℕ)
    (xp yp : ℤ) (x y : ℕ) :
    dummyFlat img state C xp yp x y =
      ((List.range 3).flatMap fun (i : ℕ) => (List.range 3).map fun (j : ℕ) =>
        img (xp + i) (yp + j) ::
          (List.range C).map fun ch => state (x + i) (y + j) ch).flatten := by
  simp [dummyFlat, List.range_succ]

/-- In `collect_input`'s flattened window the image value of window element
(i, j) sits at index `(i*3 + j) * (1 + C)`. -/
theorem dummyFlat_getD_window (img : Img) (state : StateArr) (C : ℕ)
    (xp yp : ℤ) (x y i j : ℕ) (hi : i < 3) (hj : j < 3) :
    (dummyFlat img state C xp yp x y).getD ((i * 3 + j) * (1 + C)) 0 =
      img (xp + i) (yp + j) := by
  rw [dummyFlat_eq_flatten]
  rw [flatten_getD_uniform (1 + C) (by omega) _ _ ?hlen ?hk]
  case hlen =>
    intro l hl
    simp only [List.mem_flatMap, List.mem_map, List.mem_range] at hl
    obtain ⟨i2, hi2, j2, hj2, rfl⟩ := hl
    simp
    omega
  case hk =>
    have h9 : (((List.range 3).flatMap fun (i : ℕ) => (List.range 3).map fun (j : ℕ) =>
        img (xp + i) (yp + j) ::
          (List.range C).map fun ch => state (x + i) (y + j) ch)).length = 9 := by
      simp [List.range_succ]
    rw [h9]
    omega
  interval_cases i <;> interval_cases j <;> simp [List.range_succ]

/-- Claim C4: gathering with the expanded index map puts at block position
(3x+i, 3y+j) exactly the source element (anchor_row(x,y)+i, anchor_col(x,y)+j)
— the same 3×3 window elements, in the same (i, j, channel-fastest) order in
which `collect_input`'s direct double-loop extraction lays them out (the
image value of window element (i, j) is entry `(i*3+j)*(1+C)` of the
flattened window). -/
theorem gather_expand_matches_collect_input
    (anchors : ℕ → ℕ → ℕ → ℤ × ℤ) (src : ℕ → ℤ → ℤ → ℕ → ℚ)
    (img : Img) (state : StateArr) (C b x y i j c : ℕ)
    (hi : i < 3) (hj : j < 3) :
    gather_mine src (expand anchors) b (3 * x + i) (3 * y + j) c =
      src b ((anchors b x y).1 + i) ((anchors b x y).2 + j) c ∧
    (dummyFlat img state C (anchors b x y).1 (anchors b x y).2 x y).getD
        ((i * 3 + j) * (1 + C)) 0 =
      img ((anchors b x y).1 + i) ((anchors b x y).2 + j) := by
  constructor
  · have h1 : (3 * x + i) / 3 = x := by omega
    have h2 : (3 * x + i) % 3 = i := by omega
    have h3 : (3 * y + j) / 3 = y := by omega
    have h4 : (3 * y + j) % 3 = j := by omega
    simp [gather_mine, expand, h1, h2, h3, h4]
  · exact dummyFlat_getD_window img state C _ _ x y i j hi hj

/-- Witness for C4 at cell (1, 0), window offset (2, 1), a nonconstant
anchor array and source. -/
theorem gather_expand_matches_collect_input_witness :
    (2 < 3 ∧ 1 < 3) ∧
    gather_mine (fun b r c2 _ => (r : ℚ) + 10 * (c2 : ℚ) + (b : ℚ))
        (expand (fun b x y => ((x : ℤ) + b, (y : ℤ) + 2 * b))) 0
        (3 * 1 + 2) (3 * 0 + 1) 0 = 13 := by
  refine ⟨⟨by decide, by decide⟩, ?_⟩
  have h := (gather_expand_matches_collect_input
      (fun b x y => ((x : ℤ) + b, (y : ℤ) + 2 * b))
      (fun b r c2 _ => (r : ℚ) + 10 * (c2 : ℚ) + (b : ℚ))
      (fun _ _ => 0) (fun _ _ _ => 0)
      0 0 1 0 2 1 0 (by decide) (by decide)).1
  rw [h]
  norm_num

/-- The accumulation at an interior cell and real channel adds exactly one
output value. -/
theorem accumulate_interior (state : StateArr) (out : ℕ → ℕ → ℕ → ℚ)
    (Nneo Mneo C x y c : ℕ) (hx : x < Nneo) (hy : y < Mneo) (hc : c < C) :
    accumulate state out Nneo Mneo C (1 + x) (1 + y) c =
      state (1 + x) (1 + y) c + out x y c := by
  have hcond : 1 ≤ 1 + x ∧ 1 + x < 1 + Nneo ∧ 1 ≤ 1 + y ∧ 1 + y < 1 + Mneo ∧
      c < C := by omega
  simp only [accumulate]
  rw [if_pos hcond]
  simp

/-- With movement disabled an iteration never fires an assertion: it only
accumulates and records the guesses. -/
theorem classify_step_nomove (cfg : MovingNCA) (f : List ℚ → List ℚ)
    (g : ℕ → ℕ → ℚ) (img : Img) (s : SRun) (hmov : cfg.moving = false) :
    classify_step cfg f g img s =
      .ok ⟨accumulate s.state
            (outputsOf ((collect_input cfg.position cfg.H cfg.W cfg.Nneo
              cfg.Mneo cfg.C img s.state s.perc g).map f) cfg.Mneo)
            cfg.Nneo cfg.Mneo cfg.C,
          s.perc,
          (collect_input cfg.position cfg.H cfg.W cfg.Nneo cfg.Mneo cfg.C
            img s.state s.perc g).map f⟩ := by
  simp [classify_step, hmov]

/-- With movement disabled the run completes and every interior real
channel of the final state is the starting value plus the sum of that
channel over the recorded per-iteration Output Vectors. -/
theorem classify_trace_nomove (cfg : MovingNCA) (f : List ℚ → List ℚ)
    (g : ℕ → ℕ → ℚ) (img : Img) (hmov : cfg.moving = false) (x y c : ℕ)
    (hx : x < cfg.Nneo) (hy : y < cfg.Mneo) (hc : c < cfg.C) :
    ∀ (K : ℕ) (s : SRun), ∃ sf tr,
      classify_trace cfg f g img K s = .ok (sf, tr) ∧ tr.length = K ∧
      sf.state (1 + x) (1 + y) c =
        s.state (1 + x) (1 + y) c + (tr.map fun o => o x y c).sum := by
  intro K
  induction K with
  | zero => exact fun s => ⟨s, [], rfl, rfl, by simp⟩
  | succ K ih =>
    intro s
    obtain ⟨sf, tr, htr, hlen, hsum⟩ :=
      ih ⟨accumulate s.state
            (outputsOf ((collect_input cfg.position cfg.H cfg.W cfg.Nneo
              cfg.Mneo cfg.C img s.state s.perc g).map f) cfg.Mneo)
            cfg.Nneo cfg.Mneo cfg.C,
          s.perc,
          (collect_input cfg.position cfg.H cfg.W cfg.Nneo cfg.Mneo cfg.C
            img s.state s.perc g).map f⟩
    refine ⟨sf,
      outputsOf ((collect_input cfg.position cfg.H cfg.W cfg.Nneo cfg.Mneo
        cfg.C img s.state s.perc g).map f) cfg.Mneo :: tr, ?_, ?_, ?_⟩
    · simp only [classify_trace, classify_step_nomove cfg f g img s hmov, htr]
    · simp [hlen]
    · rw [hsum]
      simp only [accumulate_interior _ _ _ _ _ x y c hx hy hc]
      simp [add_assoc]

/-- Claim C7: with movement disabled and ablation disabled, starting from
the all-zero reset state, after K iterations each interior real channel of
the State Array equals the sum over the K iterations of that channel of the
iteration's Output Vectors. -/
theorem state_additivity (cfg : MovingNCA) (f : List ℚ → List ℚ)
    (g : ℕ → ℕ → ℚ) (img : Img) (p0 : Anchors) (K x y c : ℕ)
    (hmov : cfg.moving = false) (hx : x < cfg.Nneo) (hy : y < cfg.Mneo)
    (hc : c < cfg.C) :
    ∃ sf tr,
      classify_trace cfg f g img K
          ⟨reset_state (cfg.H, cfg.W) cfg.C, p0, []⟩ = .ok (sf, tr) ∧
      tr.length = K ∧
      sf.state (1 + x) (1 + y) c = (tr.map fun o => o x y c).sum := by
  obtain ⟨sf, tr, htr, hlen, hsum⟩ :=
    classify_trace_nomove cfg f g img hmov x y c hx hy hc K
      ⟨reset_state (cfg.H, cfg.W) cfg.C, p0, []⟩
  exact ⟨sf, tr, htr, hlen, by simpa [reset_state] using hsum⟩

/-- Batch element 0 of a batched run, viewed as a single-sample run. -/
def BRun.proj (s : BRun) : SRun :=
  ⟨s.state 0, s.perc 0, s.guesses⟩

/-- With batch size 1 the batched input buffer content coincides with the
single-sample one (rows `0*N_neo*M_neo + x*M_neo + y = x*M_neo + y`). -/
theorem collect_input_batched_one (mode : Option String) (N M Nneo Mneo C : ℕ)
    (images : ℕ → Img) (states : ℕ → StateArr) (ps : ℕ → Anchors)
    (g : ℕ → ℕ → ℚ) :
    collect_input_batched mode N M Nneo Mneo C 1 images states ps g =
      collect_input mode N M Nneo Mneo C (images 0) (states 0) (ps 0) g := by
  have h1 : List.range 1 = [0] := rfl
  simp [collect_input_batched, collect_input, h1]

/-- Batch element 0 of the batched reshape is the single-sample reshape. -/
theorem outputsOfBatched_zero (guesses : List (List ℚ)) (Nneo Mneo : ℕ) :
    outputsOfBatched guesses Nneo Mneo 0 = outputsOf guesses Mneo := by
  funext x y c
  simp [outputsOfBatched, outputsOf]

/-- One batched iteration at batch size 1 projects to one single-sample
iteration. -/
theorem classify_batch_step_one (cfg : MovingNCA) (f : List ℚ → List ℚ)
    (g : ℕ → ℕ → ℚ) (img : Img) (s : BRun) :
    (classify_batch_step cfg f g 1 (fun _ => img) s).map BRun.proj =
      classify_step cfg f g img s.proj := by
  have hrows : collect_input_batched cfg.position cfg.H cfg.W cfg.Nneo
      cfg.Mneo cfg.C 1 (fun _ => img) s.state s.perc g =
      collect_input cfg.position cfg.H cfg.W cfg.Nneo cfg.Mneo cfg.C img
        (s.state 0) (s.perc 0) g :=
    collect_input_batched_one cfg.position cfg.H cfg.W cfg.Nneo cfg.Mneo cfg.C
      (fun _ => img) s.state s.perc g
  simp only [classify_batch_step, classify_step, hrows, BRun.proj]
  cases hm : cfg.moving with
  | false =>
    simp only [hm, Bool.false_eq_true, if_false, Except.map, BRun.proj,
      Except.ok.injEq, SRun.mk.injEq]
    refine ⟨?_, trivial, trivial⟩
    rw [outputsOfBatched_zero]
  | true =>
    simp only [hm, if_true, alter_perception_slicing,
      alter_perception_slicing_batched, add_action_slicing,
      add_action_slicing_batched]
    by_cases hNM : cfg.H - 2 = cfg.W - 2
    · rw [if_pos hNM, if_pos hNM]
      simp only [Except.map, BRun.proj, Except.ok.injEq, SRun.mk.injEq]
      refine ⟨?_, ?_, trivial⟩
      · rw [outputsOfBatched_zero]
      · funext x y
        simp [clipping_batched, clipping, add_discrete_action,
          custom_round_slicing, outputsOfBatched_zero]
    · rw [if_neg hNM, if_neg hNM]
      rfl

/-- The batched loop at batch size 1 projects to the single-sample loop. -/
theorem classify_batch_loop_one (cfg : MovingNCA) (f : List ℚ → List ℚ)
    (g : ℕ → ℕ → ℚ) (img : Img) :
    ∀ (K : ℕ) (s : BRun),
      (classify_batch_loop cfg f g 1 (fun _ => img) K s).map BRun.proj =
        classify_loop cfg f g img K s.proj := by
  intro K
  induction K with
  | zero => intro s; rfl
  | succ K ih =>
    intro s
    have hstep := classify_batch_step_one cfg f g img s
    simp only [classify_batch_loop, classify_loop]
    cases hb : classify_batch_step cfg f g 1 (fun _ => img) s with
    | ok s2 =>
      rw [hb] at hstep
      rw [← hstep]
      exact ih s2
    | error e =>
      rw [hb] at hstep
      rw [← hstep]
      rfl

/-- Claim C1: running `classify_batch` with batch size 1 produces, at its
only batch element, the same final State Array (hence the same returned
class-channel slice) and the same last Output Vectors (`guesses`) as
running `classify` from the same initial state, anchors and update
function with ablation disabled — including agreement on whether the
square-grid assertion aborts the run. -/
theorem batch_size_one_equiv (cfg : MovingNCA) (f : List ℚ → List ℚ)
    (g : ℕ → ℕ → ℚ) (img : Img) (state0 : StateArr) (p0 : Anchors) (K : ℕ) :
    (classify_batch cfg f g 1 (fun _ => img) (fun _ => state0) (fun _ => p0)
        K).map (fun r => (r.1 0, r.2)) =
      classify cfg f g img state0 p0 K ∧
    (classify_batch_loop cfg f g 1 (fun _ => img) K
        ⟨fun _ => state0, fun _ => p0, []⟩).map
        (fun s => (s.state 0, s.perc 0, s.guesses)) =
      (classify_loop cfg f g img K ⟨state0, p0, []⟩).map
        (fun s => (s.state, s.perc, s.guesses)) := by
  have hloop : (classify_batch_loop cfg f g 1 (fun _ => img) K
        ⟨fun _ => state0, fun _ => p0, []⟩).map BRun.proj =
      classify_loop cfg f g img K ⟨state0, p0, []⟩ :=
    classify_batch_loop_one cfg f g img K ⟨fun _ => state0, fun _ => p0, []⟩
  constructor
  · simp only [classify, classify_batch]
    rw [← hloop]
    cases hE : classify_batch_loop cfg f g 1 (fun _ => img) K
      ⟨fun _ => state0, fun _ => p0, []⟩ <;> rfl
  · rw [← hloop]
    cases hE : classify_batch_loop cfg f g 1 (fun _ => img) K
      ⟨fun _ => state0, fun _ => p0, []⟩ <;> rfl

/-- Witness for C7: a 3×3 image, 1×1 grid, one class channel, constant
update function emitting output vector [5, 1, 2], two iterations. -/
theorem state_additivity_witness :
    ((⟨3, 3, 1, 1, 0, 1, none, false⟩ : MovingNCA).moving = false ∧
     0 < (⟨3, 3, 1, 1, 0, 1, none, false⟩ : MovingNCA).Nneo ∧
     0 < (⟨3, 3, 1, 1, 0, 1, none, false⟩ : MovingNCA).Mneo ∧
     0 < (⟨3, 3, 1, 1, 0, 1, none, false⟩ : MovingNCA).C) ∧
    ∃ sf tr,
      classify_trace (⟨3, 3, 1, 1, 0, 1, none, false⟩ : MovingNCA)
          (fun _ => [5, 1, 2]) (fun _ _ => 0) (fun _ _ => 0) 2
          ⟨reset_state (3, 3) 1, fun _ _ => (0, 0), []⟩ = .ok (sf, tr) ∧
      tr.length = 2 ∧
      sf.state (1 + 0) (1 + 0) 0 = (tr.map fun o => o 0 0 0).sum :=
  ⟨⟨rfl, by decide, by decide, by decide⟩,
   state_additivity ⟨3, 3, 1, 1, 0, 1, none, false⟩ (fun _ => [5, 1, 2])
     (fun _ _ => 0) (fun _ _ => 0) (fun _ _ => (0, 0)) 2 0 0 0 rfl
     (by decide) (by decide) (by decide)⟩
